import Mathlib

/-!
# Verification of the filesconversion conversion pipeline

A shallow embedding of the core of `src/app/page.tsx` (an in-browser
PNG/JPG/SVG to WebP/ICO converter) together with proofs about it.

Modelling conventions:

* JavaScript numbers produced by `parseFloat` are modelled as `Option ℚ`,
  where `none` stands for a non-finite result (`NaN` or an infinity) and
  `some q` for the finite value `q`.  `Number.isFinite` becomes `Option.isSome`
  and the falsy test of `x || y` treats `none` and `some 0` as falsy.
* Byte buffers are `List ℕ` whose elements are byte values; `DataView`
  writes become explicit `% 256` arithmetic.
* The DOM layer consumed by `parseSvgSize` (DOMParser / `querySelector` /
  `getAttribute`) is abstracted by `SvgDoc`: either the markup was
  unparseable, or no `svg` element was found, or the root `svg` element with
  its `width` / `height` / `viewBox` attribute strings.
* Browser collaborators used by the pipeline (image decoding, canvas
  encoding) are inputs of the model: a `FileModel` carries the responses the
  environment would give for that file.  `URL.createObjectURL` is modelled
  as allocating fresh numeric handles from a counter, and revocations are
  recorded, so resource claims can be stated.
* The archive writer (JSZip) is an external collaborator; per the design it
  is modelled at its interface, the ordered list of (name, bytes) entries
  submitted to it.
-/

namespace FilesConv

/-! ## Character and string primitives (JS semantics) -/

/-- ASCII whitespace, the common subset of the JS `\s` class. -/
def isWsChar (c : Char) : Bool :=
  c == ' ' || c == '\t' || c == '\n' || c == '\r' || c == '\x0b' || c == '\x0c'

/-- `String.prototype.split(/\s+/)` on a character list: maximal whitespace
runs separate tokens, and a leading or trailing run contributes an empty
token, exactly as in JS. -/
def splitWsGo : List Char → List Char → List (List Char)
  | [], acc => [acc.reverse]
  | c :: cs, acc =>
    if isWsChar c then
      match cs with
      | [] => [acc.reverse, []]
      | c' :: _ => if isWsChar c' then splitWsGo cs acc else acc.reverse :: splitWsGo cs []
    else splitWsGo cs (c :: acc)

/-- JS `s.split(/\s+/)`. -/
def splitWs (s : String) : List String :=
  (splitWsGo s.data []).map List.asString

/-- JS `s.split(sep)` for a single-character separator: every occurrence
separates, empty pieces are kept, and the empty string splits to `[""]`. -/
def splitOnChar (sep : Char) : List Char → List (List Char)
  | [] => [[]]
  | c :: cs =>
    if c = sep then [] :: splitOnChar sep cs
    else
      match splitOnChar sep cs with
      | t :: ts => (c :: t) :: ts
      | [] => [[c]]

/-- JS `s.split(".")`. -/
def jsSplitDot (s : String) : List String :=
  (splitOnChar '.' s.data).map List.asString

/-- JS `s.toLowerCase()` (characterwise, which covers ASCII names). -/
def jsToLower (s : String) : String :=
  ⟨s.data.map Char.toLower⟩

/-- JS `s.endsWith(t)`. -/
def jsEndsWith (s t : String) : Bool :=
  s.data.reverse.take t.data.length == t.data.reverse

/-- Value of a digit string, most significant first. -/
def digitsVal (ds : List Char) : ℕ :=
  ds.foldl (fun acc c => 10 * acc + (c.toNat - 48)) 0

/-- Model of JS `parseFloat`: skip leading whitespace, read an optional
sign, then either `Infinity` (a non-finite result, `none`) or a decimal
mantissa with optional fraction and exponent; trailing garbage is ignored.
`none` is returned when no numeric prefix exists (JS `NaN`). -/
def parseFloat (s : String) : Option ℚ :=
  let cs0 := s.data.dropWhile isWsChar
  let signNeg := cs0.head? == some '-'
  let cs1 := if cs0.head? == some '-' || cs0.head? == some '+' then cs0.tail else cs0
  if cs1.take 8 == "Infinity".data then none
  else
    let intDs := cs1.takeWhile Char.isDigit
    let rest1 := cs1.dropWhile Char.isDigit
    let fracDs := if rest1.head? == some '.' then rest1.tail.takeWhile Char.isDigit else []
    let rest2 := if rest1.head? == some '.' then rest1.tail.dropWhile Char.isDigit else rest1
    if intDs.isEmpty && fracDs.isEmpty then none
    else
      let expPair :=
        if rest2.head? == some 'e' || rest2.head? == some 'E' then
          let r := rest2.tail
          if r.head? == some '-' then (true, r.tail.takeWhile Char.isDigit)
          else if r.head? == some '+' then (false, r.tail.takeWhile Char.isDigit)
          else (false, r.takeWhile Char.isDigit)
        else (false, ([] : List Char))
      let e := digitsVal expPair.2
      let mantNum : ℤ := (digitsVal intDs * 10 ^ fracDs.length + digitsVal fracDs : ℕ)
      let signedNum : ℤ := if signNeg then -mantNum else mantNum
      let num : ℤ := if expPair.1 then signedNum else signedNum * 10 ^ e
      let den : ℕ := if expPair.1 then 10 ^ fracDs.length * 10 ^ e else 10 ^ fracDs.length
      some (Rat.divInt num den)

/-- A JS number that may be non-finite: `none` is `NaN` (or an infinity). -/
abbrev JSNum := Option ℚ

/-- JS `a || b` on numbers: `a` unless it is falsy (`NaN` or `0`). -/
def jsOr (a b : JSNum) : JSNum :=
  match a with
  | none => b
  | some q => if q = 0 then b else some q

/-! ## Source constants and pure helpers (`src/app/page.tsx`) -/

/-- `ACCEPTED_TYPES` (page.tsx line 13). -/
def ACCEPTED_TYPES : List String :=
  ["image/png", "image/jpeg", "image/jpg", "image/svg+xml"]

/-- `DEFAULT_SVG_SIZE` (page.tsx line 20). -/
def DEFAULT_SVG_SIZE : ℚ := 256

/-- The accepted filename extension list of `isAcceptedFile`. -/
def acceptedExts : List String := ["png", "jpg", "jpeg", "svg"]

/-- `isAcceptedFile` (page.tsx lines 22-28): declared type in
`ACCEPTED_TYPES`, or the last `"."`-separated segment of the lowercased name
(`split(".").pop() || ""`) in `acceptedExts`. -/
def isAcceptedFile (fileType fileName : String) : Bool :=
  if ACCEPTED_TYPES.contains fileType then true
  else
    let extSeg := (jsSplitDot (jsToLower fileName)).getLastD ("")
    acceptedExts.contains extSeg

/-- Abstraction of the DOM parse used by `parseSvgSize`: the markup was
unparseable (the `catch` path), or no `svg` element was found, or the root
`svg` element with its attribute strings (`none` = attribute absent). -/
inductive SvgDoc where
  | unparseable
  | noSvg
  | svgElem (width height viewBox : Option String)

/-- `parseSvgSize` (page.tsx lines 30-63) over the abstracted DOM.
`getAttribute(..) || ""` is `Option.getD ""`; `Number.isFinite` on both
parses is the first `match`; the truthiness test `if (viewBox)` is the
emptiness check; the split is on whitespace runs. -/
def parseSvgSize (doc : SvgDoc) : ℚ × ℚ :=
  match doc with
  | .unparseable => (DEFAULT_SVG_SIZE, DEFAULT_SVG_SIZE)
  | .noSvg => (DEFAULT_SVG_SIZE, DEFAULT_SVG_SIZE)
  | .svgElem wAttr hAttr vbAttr =>
    let width := parseFloat (wAttr.getD (""))
    let height := parseFloat (hAttr.getD (""))
    match width, height with
    | some x, some y => (x, y)
    | _, _ =>
      match vbAttr with
      | some viewBox =>
        if viewBox == "" then (DEFAULT_SVG_SIZE, DEFAULT_SVG_SIZE)
        else
          let parts := (splitWs viewBox).map parseFloat
          if parts.length == 4 && parts.all Option.isSome then
            ((parts.getD 2 none).getD 0, (parts.getD 3 none).getD 0)
          else (DEFAULT_SVG_SIZE, DEFAULT_SVG_SIZE)
      | none => (DEFAULT_SVG_SIZE, DEFAULT_SVG_SIZE)

/-- Little-endian 16-bit write (`DataView.setUint16(_, _, true)`). -/
def u16le (n : ℕ) : List ℕ := [n % 256, n / 256 % 256]

/-- Little-endian 32-bit write (`DataView.setUint32(_, _, true)`). -/
def u32le (n : ℕ) : List ℕ :=
  [n % 256, n / 256 % 256, n / 256 ^ 2 % 256, n / 256 ^ 3 % 256]

/-- `buildIcoBlob` (page.tsx lines 84-117): six writes of header fields,
four single bytes, then the PNG payload copied verbatim after the 22-byte
header. -/
def buildIcoBlob (pngData : List ℕ) (size : ℕ) : List ℕ :=
  let headerSize := 6 + 16
  let iconSize := if 256 ≤ size then 0 else size
  u16le 0 ++ u16le 1 ++ u16le 1 ++
    [iconSize % 256, iconSize % 256, 0, 0] ++
    u16le 1 ++ u16le 32 ++
    u32le pngData.length ++ u32le headerSize ++
    pngData

/-- `getBaseName` (page.tsx lines 128-135). -/
def getBaseName (filename : String) : String :=
  let parts := jsSplitDot filename
  if parts.length = 1 then filename
  else String.intercalate (".") parts.dropLast

/-! ## Data model -/

/-- The `status` union of `ConversionItem` (page.tsx line 9). -/
inductive ItemStatus where
  | ready
  | working
  | done
  | error
deriving DecidableEq, Repr

/-- `ConversionItem` (page.tsx lines 7-11). -/
structure ConversionItem where
  name : String
  status : ItemStatus
  detail : Option String
deriving DecidableEq, Repr

/-- The conversion mode argument of `convertAll` (page.tsx line 219). -/
inductive ConvMode where
  | webp
  | ico
deriving DecidableEq, Repr

/-- A candidate input file together with the responses the browser
environment gives for it: its descriptor (name, declared mime type), the
DOM parse of its text content (consulted only on the SVG path), whether the
`Image` fires `onload` and its intrinsic bitmap size, whether
`getContext("2d")` returns a context, and the bytes `canvas.toBlob`
produces for the WebP encode (a function of the drawn size and the quality
scalar) and for the quality-free PNG encode of the icon path (a function of
the configured icon size); `none` models an export that produced no blob. -/
structure FileModel where
  name : String
  mimeType : String
  svgDoc : SvgDoc
  imgLoads : Bool
  naturalWidth : ℕ
  naturalHeight : ℕ
  ctxOk : Bool
  webpEncode : JSNum × JSNum → ℚ → Option (List ℕ)
  pngEncode : ℕ → Option (List ℕ)

/-- The value produced by a successful `loadImageFromFile`: resolved
dimensions and the object-URL handle its `revoke` closure would release. -/
structure LoadedImage where
  width : JSNum
  height : JSNum
  revokeTarget : ℕ
deriving DecidableEq, Repr

/-- The full outcome of `loadImageFromFile`: which object-URL handles were
created (in order), the next fresh handle, and the result or the rejection
message. -/
structure LoadOutcome where
  created : List ℕ
  ctrAfter : ℕ
  result : Except String LoadedImage

/-- `loadImageFromFile` (page.tsx lines 137-168).  `URL.createObjectURL` is
modelled as allocating fresh handles from `ctr`: one for the raw file and —
on the SVG path — a second for the re-serialized SVG blob, which then
becomes the `objectUrl` the returned `revoke` closure targets.  The
dimension fallback chain `svgSize.x || natural || DEFAULT_SVG_SIZE` is the
JS falsy `||`. -/
def loadImageFromFile (f : FileModel) (ctr : ℕ) : LoadOutcome :=
  let isSvg := f.mimeType == "image/svg+xml" || jsEndsWith (jsToLower f.name) (".svg")
  let created := if isSvg then [ctr, ctr + 1] else [ctr]
  let objectUrl := if isSvg then ctr + 1 else ctr
  let ctrAfter := if isSvg then ctr + 2 else ctr + 1
  let svgSize : JSNum × JSNum :=
    if isSvg then
      let s := parseSvgSize f.svgDoc
      (some s.1, some s.2)
    else (some 0, some 0)
  if f.imgLoads then
    let width := jsOr (jsOr svgSize.1 (some (f.naturalWidth : ℚ))) (some DEFAULT_SVG_SIZE)
    let height := jsOr (jsOr svgSize.2 (some (f.naturalHeight : ℚ))) (some DEFAULT_SVG_SIZE)
    ⟨created, ctrAfter, .ok ⟨width, height, objectUrl⟩⟩
  else ⟨created, ctrAfter, .error ("Image load failed")⟩

/-! ## Orchestrator (`convertAll`, page.tsx lines 219-289) -/

/-- The three `updateItem` patches used by `convertAll`: entering Working
clears `detail`, Done leaves it, Error sets it. -/
inductive ItemPatch where
  | working
  | done
  | error (msg : String)

/-- Apply one patch, as the object spread in `updateItem` does. -/
def applyPatch : ItemPatch → ConversionItem → ConversionItem
  | .working, it => { it with status := .working, detail := none }
  | .done, it => { it with status := .done }
  | .error msg, it => { it with status := .error, detail := some msg }

/-- `updateItem` (page.tsx lines 213-217): patch every item whose `name`
matches. -/
def updateItem (name : String) (p : ItemPatch) (items : List ConversionItem) :
    List ConversionItem :=
  items.map fun it => if it.name = name then applyPatch p it else it

/-- The value content of one item's pipeline (the `try` body of the loop in
`convertAll`): load, check the 2d context, then encode for the mode; the
result is the produced artifact's name and bytes, or the thrown error's
message.  The load's object-URL bookkeeping is split into `pipelineUrls`;
the handle counter does not influence this value. -/
def pipelineOut (mode : ConvMode) (quality : ℚ) (iconSize : ℕ) (f : FileModel) :
    Except String (String × List ℕ) :=
  match (loadImageFromFile f 0).result with
  | .error msg => .error msg
  | .ok loaded =>
    if f.ctxOk then
      let baseName := getBaseName f.name
      match mode with
      | .webp =>
        match f.webpEncode (loaded.width, loaded.height) quality with
        | some bytes => .ok (baseName ++ ".webp", bytes)
        | none => .error ("Canvas export failed")
      | .ico =>
        match f.pngEncode iconSize with
        | some png => .ok (baseName ++ ".ico", buildIcoBlob png iconSize)
        | none => .error ("Canvas export failed")
    else .error ("Canvas unavailable")

/-- The resource content of one item's pipeline: handles created, handles
revoked, and the next fresh handle.  `revoke` starts as a no-op and is
replaced by the loaded image's closure only after a successful load, and the
`finally` block always calls it — so exactly the load's `revokeTarget` is
revoked on success, and nothing on a load failure. -/
def pipelineUrls (f : FileModel) (ctr : ℕ) : List ℕ × List ℕ × ℕ :=
  let o := loadImageFromFile f ctr
  match o.result with
  | .ok loaded => (o.created, [loaded.revokeTarget], o.ctrAfter)
  | .error _ => (o.created, [], o.ctrAfter)

/-- An output delivered to the user by `downloadBlob`: a standalone artifact
or the final archive with the entries submitted to the writer. -/
inductive Output where
  | artifact (filename : String) (bytes : List ℕ)
  | archive (filename : String) (entries : List (String × List ℕ))
deriving DecidableEq, Repr

/-- The observable state of one batch run: the current item list, the
snapshots after every `updateItem` call, the (name, bytes) entries submitted
to the archive writer, the outputs downloaded, the object-URL handles
created and revoked, and the fresh-handle counter. -/
structure RunState where
  items : List ConversionItem
  history : List (List ConversionItem)
  zipEntries : List (String × List ℕ)
  downloads : List Output
  urlCreated : List ℕ
  urlRevoked : List ℕ
  ctr : ℕ
deriving Repr

/-- The state at the start of a run. -/
def initState (items0 : List ConversionItem) : RunState :=
  ⟨items0, [], [], [], [], [], 0⟩

/-- The `for` loop of `convertAll`: one file at a time, mark Working, run
the pipeline, then mark Done and deliver (directly when the batch is a
single file, into the zip otherwise) or mark Error with the message; the
`finally` resource effects are merged via `pipelineUrls`. -/
def runConv (mode : ConvMode) (quality : ℚ) (iconSize : ℕ) (single : Bool) :
    List FileModel → RunState → RunState
  | [], st => st
  | f :: fs, st =>
    let items1 := updateItem f.name ItemPatch.working st.items
    let u := pipelineUrls f st.ctr
    match pipelineOut mode quality iconSize f with
    | .ok a =>
      let items2 := updateItem f.name ItemPatch.done items1
      runConv mode quality iconSize single fs
        ⟨items2, st.history ++ [items1, items2],
          if single then st.zipEntries else st.zipEntries ++ [a],
          if single then st.downloads ++ [Output.artifact a.1 a.2] else st.downloads,
          st.urlCreated ++ u.1, st.urlRevoked ++ u.2.1, u.2.2⟩
    | .error msg =>
      let items2 := updateItem f.name (ItemPatch.error msg) items1
      runConv mode quality iconSize single fs
        ⟨items2, st.history ++ [items1, items2], st.zipEntries, st.downloads,
          st.urlCreated ++ u.1, st.urlRevoked ++ u.2.1, u.2.2⟩

/-- The archive filename for each mode (page.tsx lines 282-283). -/
def zipName : ConvMode → String
  | .webp => "webp-conversions.zip"
  | .ico => "ico-icons.zip"

/-- The artifact extension for each mode. -/
def modeExt : ConvMode → String
  | .webp => ".webp"
  | .ico => ".ico"

/-- `convertAll` (page.tsx lines 219-289): bail out when no files or busy,
process every file sequentially with `isSingle = (files.length === 1)`, and
when more than one file was submitted finalize and download the archive. -/
def convertAll (mode : ConvMode) (quality : ℚ) (iconSize : ℕ)
    (files : List FileModel) (busy : Bool) (items0 : List ConversionItem) : RunState :=
  if files.length == 0 || busy then initState items0
  else
    let st := runConv mode quality iconSize (files.length == 1) files (initState items0)
    if 1 < files.length then
      { st with downloads := st.downloads ++ [Output.archive (zipName mode) st.zipEntries] }
    else st

/-- The item created for an accepted file by `syncItems` (page.tsx
lines 186-193). -/
def mkReadyItem (f : FileModel) : ConversionItem :=
  ⟨f.name, .ready, none⟩

/-- `handleFiles` (page.tsx lines 195-199): filter by the validator, keep
the filtered files as the working set and create one Ready item per kept
file. -/
def handleFiles (incoming : List FileModel) : List FileModel × List ConversionItem :=
  let filtered := incoming.filter fun f => isAcceptedFile f.mimeType f.name
  (filtered, filtered.map mkReadyItem)

/-! ## Derived notions used by the statements -/

/-- Both the `width` and the `height` attribute parse to a finite number —
the condition of the first branch of `parseSvgSize`. -/
def numericDimsB (w h : Option String) : Bool :=
  (parseFloat (w.getD (""))).isSome && (parseFloat (h.getD (""))).isSome

/-- The `viewBox` attribute splits (on whitespace runs, JS `split(/\s+/)`)
into exactly four components that all parse to finite numbers. -/
def viewBoxNumericB (vb : String) : Bool :=
  let parts := (splitWs vb).map parseFloat
  parts.length == 4 && parts.all Option.isSome

/-- The filename extension as the spec's words read: the suffix after the
last dot of the lowercased name, and no extension at all when the name
contains no dot. -/
def fileExtension (fileName : String) : Option String :=
  let parts := jsSplitDot (jsToLower fileName)
  if parts.length ≤ 1 then none else some (parts.getLastD (""))

/-- The acceptance predicate exactly as the claim is worded: declared type
in the accepted set, or the filename's lowercase extension in the accepted
extension set (a name with no dot has no extension). -/
def specAcceptedFile (fileType fileName : String) : Bool :=
  ACCEPTED_TYPES.contains fileType ||
    (match fileExtension fileName with
     | some e => acceptedExts.contains e
     | none => false)

/-- The acceptance predicate the code implements, stated structurally: like
`specAcceptedFile`, but a name with no dot matches on the whole lowercased
name (because `split(".").pop()` of a dotless name is the name itself). -/
def isAcceptedAmended (fileType fileName : String) : Bool :=
  ACCEPTED_TYPES.contains fileType ||
    (match fileExtension fileName with
     | some e => acceptedExts.contains e
     | none => acceptedExts.contains (jsToLower fileName))

/-- One legal evolution step of a single item's status: unchanged, or one
of the documented transitions Ready→Working, Working→Done, Working→Error. -/
def stepOk : ItemStatus → ItemStatus → Bool
  | .ready, .ready => true
  | .ready, .working => true
  | .working, .working => true
  | .working, .done => true
  | .working, .error => true
  | .done, .done => true
  | .error, .error => true
  | _, _ => false

/-- Pointwise legality of one snapshot step: same length and every item
evolves by a legal step. -/
def itemsStepOk : List ConversionItem → List ConversionItem → Bool
  | [], [] => true
  | a :: l1, b :: l2 => stepOk a.status b.status && itemsStepOk l1 l2
  | _, _ => false

/-- Every adjacent pair of snapshots in a trace is a legal step. -/
def traceOk : List (List ConversionItem) → Bool
  | a :: b :: rest => itemsStepOk a b && traceOk (b :: rest)
  | _ => true

/-- The final item a file's run produces, as a function of that file alone:
Done with cleared detail on success, Error with the failure message
otherwise. -/
def expectedItem (mode : ConvMode) (quality : ℚ) (iconSize : ℕ) (f : FileModel) :
    ConversionItem :=
  match pipelineOut mode quality iconSize f with
  | .ok _ => ⟨f.name, .done, none⟩
  | .error msg => ⟨f.name, .error, some msg⟩

/-- The successful artifact of a pipeline outcome, if any. -/
def okOf : Except String (String × List ℕ) → Option (String × List ℕ)
  | .ok a => some a
  | .error _ => none

/-! ## Concrete example files for witnesses and counterexamples -/

/-- A well-behaved 1×1 PNG input whose encodes succeed. -/
def okPngFile (n : String) : FileModel :=
  { name := n, mimeType := "image/png", svgDoc := .noSvg, imgLoads := true,
    naturalWidth := 1, naturalHeight := 1, ctxOk := true,
    webpEncode := fun _ _ => some [7], pngEncode := fun _ => some [9] }

/-- A corrupt input: the `Image` fires `onerror`. -/
def badPngFile (n : String) : FileModel :=
  { okPngFile n with imgLoads := false }

/-- A well-behaved SVG input with no size attributes. -/
def okSvgFile (n : String) : FileModel :=
  { okPngFile n with mimeType := "image/svg+xml", svgDoc := .svgElem none none none }

/-- An SVG declaring fractional `width`/`height` attributes. -/
def fracSvgFile : FileModel :=
  { okPngFile ("f.svg") with
    mimeType := "image/svg+xml"
    svgDoc := .svgElem (some ("48.5")) (some ("48.5")) none
    naturalWidth := 0
    naturalHeight := 0 }

instance {e a : Type} [DecidableEq e] [DecidableEq a] : DecidableEq (Except e a) := fun x y =>
  match x, y with
  | .ok u, .ok v => if h : u = v then .isTrue (by rw [h]) else .isFalse (by simp [h])
  | .error u, .error v => if h : u = v then .isTrue (by rw [h]) else .isFalse (by simp [h])
  | .ok _, .error _ => .isFalse (by simp)
  | .error _, .ok _ => .isFalse (by simp)

/-! ## Helper lemmas -/

lemma jsOr_some_isSome (a : JSNum) (c : ℚ) : (jsOr a (some c)).isSome = true := by
  cases a with
  | none => rfl
  | some q =>
    simp only [jsOr]
    split <;> rfl

lemma splitOnChar_ne_nil (sep : Char) (l : List Char) : splitOnChar sep l ≠ [] := by
  induction l with
  | nil => simp [splitOnChar]
  | cons c cs ih =>
    simp only [splitOnChar]
    split
    · simp
    · rcases h : splitOnChar sep cs with _ | ⟨t, ts⟩
      · exact absurd h ih
      · simp

lemma splitOnChar_length_one (sep : Char) (l : List Char)
    (h : (splitOnChar sep l).length = 1) : splitOnChar sep l = [l] := by
  induction l with
  | nil => rfl
  | cons c cs ih =>
    by_cases hc : c = sep
    · exfalso
      simp only [splitOnChar, if_pos hc, List.length_cons] at h
      have : splitOnChar sep cs = [] := List.length_eq_zero.mp (by omega)
      exact splitOnChar_ne_nil sep cs this
    · simp only [splitOnChar, if_neg hc] at h ⊢
      rcases hs : splitOnChar sep cs with _ | ⟨t, ts⟩
      · exact absurd hs (splitOnChar_ne_nil sep cs)
      · rw [hs] at h
        have h' : ((c :: t) :: ts).length = 1 := h
        simp only [List.length_cons] at h'
        have hts : ts = [] := List.length_eq_zero.mp (by omega)
        subst hts
        have ht : t = cs := by
          have h2 := ih (by rw [hs]; rfl)
          rw [hs] at h2
          injection h2
        subst ht
        rfl

lemma jsSplitDot_singleton (s : String) (h : (jsSplitDot s).length ≤ 1) :
    (jsSplitDot s).getLastD ("") = s := by
  have hne := splitOnChar_ne_nil '.' s.data
  have hpos : 1 ≤ (splitOnChar '.' s.data).length := List.length_pos.mpr hne
  have hle : (splitOnChar '.' s.data).length ≤ 1 := by
    simpa [jsSplitDot] using h
  have hlen : (splitOnChar '.' s.data).length = 1 := le_antisymm hle hpos
  have hrw := splitOnChar_length_one '.' s.data hlen
  simp only [jsSplitDot, hrw, List.map_cons, List.map_nil]
  rfl

/-! ## Claim theorems -/

/-- C1: for every PNG byte buffer and every size in {32,64,128,256}, the
icon container is 22 + L bytes: reserved u16 0, type u16 1, count u16 1,
width and height byte `0` when the size is 256 and the size otherwise,
color count 0, reserved 0, planes u16 1, bit depth u16 32, then the
little-endian u32 PNG length at offset 14, the little-endian u32 constant
22 at offset 18, and the PNG bytes verbatim from offset 22. -/
theorem buildIcoBlob_layout (png : List ℕ) (S : ℕ)
    (hS : S = 32 ∨ S = 64 ∨ S = 128 ∨ S = 256) :
    (buildIcoBlob png S).length = 22 + png.length ∧
    (buildIcoBlob png S).take 14 =
      [0, 0, 1, 0, 1, 0, if S = 256 then 0 else S, if S = 256 then 0 else S,
        0, 0, 1, 0, 32, 0] ∧
    ((buildIcoBlob png S).drop 14).take 4 = u32le png.length ∧
    ((buildIcoBlob png S).drop 18).take 4 = u32le 22 ∧
    (buildIcoBlob png S).drop 22 = png := by
  rcases hS with h | h | h | h <;> subst h <;>
    exact ⟨by simp [buildIcoBlob, u16le, u32le]; omega, rfl, rfl, rfl, rfl⟩

theorem buildIcoBlob_layout_witness :
    ((32 : ℕ) = 32 ∨ (32 : ℕ) = 64 ∨ (32 : ℕ) = 128 ∨ (32 : ℕ) = 256) ∧
    (buildIcoBlob [170] 32).length = 22 + 1 ∧
    (buildIcoBlob [170] 32).drop 22 = [170] := by
  have h := buildIcoBlob_layout [170] 32 (Or.inl rfl)
  exact ⟨Or.inl rfl, h.1, h.2.2.2.2⟩

/-- C2: the sizing of an SVG source resolves in this order: numeric
`width` and `height` attributes win; otherwise a `viewBox` whose
whitespace-split yields exactly four finite numbers contributes its third
and fourth components; otherwise — including an absent or non-numeric
`viewBox`, a missing `svg` element, and unparseable markup — the fixed
256×256 default is returned instead of failing. -/
theorem parseSvgSize_precedence :
    (∀ w h vb x y, parseFloat (w.getD ("")) = some x → parseFloat (h.getD ("")) = some y →
      parseSvgSize (SvgDoc.svgElem w h vb) = (x, y)) ∧
    (∀ w h vb x y, numericDimsB w h = false → viewBoxNumericB vb = true →
      ((splitWs vb).map parseFloat).getD 2 none = some x →
      ((splitWs vb).map parseFloat).getD 3 none = some y →
      parseSvgSize (SvgDoc.svgElem w h (some vb)) = (x, y)) ∧
    (∀ w h, numericDimsB w h = false →
      parseSvgSize (SvgDoc.svgElem w h none) = (256, 256)) ∧
    (∀ w h vb, numericDimsB w h = false → viewBoxNumericB vb = false →
      parseSvgSize (SvgDoc.svgElem w h (some vb)) = (256, 256)) ∧
    parseSvgSize SvgDoc.noSvg = (256, 256) ∧
    parseSvgSize SvgDoc.unparseable = (256, 256) := by
  have hmain : ∀ w h vb x y, numericDimsB w h = false → viewBoxNumericB vb = true →
      ((splitWs vb).map parseFloat).getD 2 none = some x →
      ((splitWs vb).map parseFloat).getD 3 none = some y →
      parseSvgSize (SvgDoc.svgElem w h (some vb)) = (x, y) := by
    intro w h vb x y hnd hvb hx hy
    have hvb' : ¬ vb = "" := by
      intro e
      rw [e] at hvb
      exact absurd hvb (by decide)
    rcases hpw : parseFloat (w.getD ("")) with _ | xw <;>
      rcases hph : parseFloat (h.getD ("")) with _ | yh
    case some.some =>
      exfalso
      simp [numericDimsB, hpw, hph] at hnd
    all_goals
      simp only [parseSvgSize, hpw, hph]
      rw [if_neg (by simpa using hvb')]
      rw [if_pos (by simpa [viewBoxNumericB] using hvb)]
      rw [hx, hy]
      rfl
  refine ⟨?_, hmain, ?_, ?_, rfl, rfl⟩
  · intro w h vb x y hw hh
    simp only [parseSvgSize, hw, hh]
  · intro w h hnd
    rcases hpw : parseFloat (w.getD ("")) with _ | xw <;>
      rcases hph : parseFloat (h.getD ("")) with _ | yh
    case some.some =>
      exfalso
      simp [numericDimsB, hpw, hph] at hnd
    all_goals
      simp only [parseSvgSize, hpw, hph]
      rfl
  · intro w h vb hnd hvb
    rcases hpw : parseFloat (w.getD ("")) with _ | xw <;>
      rcases hph : parseFloat (h.getD ("")) with _ | yh
    case some.some =>
      exfalso
      simp [numericDimsB, hpw, hph] at hnd
    all_goals
      simp only [parseSvgSize, hpw, hph]
      by_cases he : vb = ""
      · rw [if_pos (by simpa using he)]
        rfl
      · rw [if_neg (by simpa using he)]
        rw [if_neg (by simpa [viewBoxNumericB] using hvb)]
        rfl

theorem parseSvgSize_precedence_witness :
    parseSvgSize (SvgDoc.svgElem (some ("48")) (some ("48")) none) = (48, 48) ∧
    parseSvgSize (SvgDoc.svgElem none none (some ("0 0 64 64"))) = (64, 64) ∧
    parseSvgSize (SvgDoc.svgElem none none none) = (256, 256) :=
  ⟨parseSvgSize_precedence.1 (some ("48")) (some ("48")) none 48 48 (by decide) (by decide),
    parseSvgSize_precedence.2.1 none none ("0 0 64 64") 64 64
      (by decide) (by decide) (by decide) (by decide),
    parseSvgSize_precedence.2.2.1 none none (by decide)⟩

/-- C7 (amended): every successfully decoded input has finite width and
height — never `NaN` — because each fallback chain ends in a finite
constant; they are however not always integers (see
`loadImage_dims_fractional`). -/
theorem loadImage_dims_finite (f : FileModel) (ctr : ℕ) (loaded : LoadedImage)
    (h : (loadImageFromFile f ctr).result = Except.ok loaded) :
    loaded.width.isSome = true ∧ loaded.height.isSome = true := by
  simp only [loadImageFromFile] at h
  split at h
  · rw [Except.ok.injEq] at h
    subst h
    exact ⟨jsOr_some_isSome _ _, jsOr_some_isSome _ _⟩
  · exact absurd h (by simp)

theorem loadImage_dims_finite_witness :
    (⟨some 1, some 1, 0⟩ : LoadedImage).width.isSome = true ∧
    (⟨some 1, some 1, 0⟩ : LoadedImage).height.isSome = true :=
  loadImage_dims_finite (okPngFile ("w.png")) 0 ⟨some 1, some 1, 0⟩ (by decide)

/-- C7 (counterexample to the claim as stated): an SVG declaring
`width="48.5" height="48.5"` decodes to SourceImage dimensions 97/2 — a
finite number that is not an integer, so «width and height are resolved
integers» fails on this input. -/
theorem loadImage_dims_fractional :
    (loadImageFromFile fracSvgFile 0).result =
      Except.ok ⟨some (Rat.divInt 97 2), some (Rat.divInt 97 2), 1⟩ ∧
    (Rat.divInt 97 2).den ≠ 1 :=
  ⟨by decide, by decide⟩

/-- C9 (counterexample to the claim as stated): a file named just `png`
with a non-image declared type is accepted by the code, although its
declared type is not in the accepted set and it has no extension (no dot in
the name), because `split(".").pop()` of a dotless name is the whole name. -/
theorem isAcceptedFile_noExt_cex :
    isAcceptedFile ("text/plain") ("png") = true ∧
    specAcceptedFile ("text/plain") ("png") = false := by
  exact ⟨by decide, by decide⟩

/-- C9 (amended): the validator accepts exactly the files whose declared
type is in the accepted set or whose last dot-separated segment of the
lowercased name — the whole name when it contains no dot — is in
{png, jpg, jpeg, svg}; and intake keeps exactly the accepted files, creating
one Ready item per kept file and none for rejected ones, with no error
path. -/
theorem isAcceptedFile_spec :
    (∀ fileType fileName, isAcceptedFile fileType fileName = isAcceptedAmended fileType fileName) ∧
    (∀ incoming, handleFiles incoming =
      (incoming.filter fun f => isAcceptedFile f.mimeType f.name,
        (incoming.filter fun f => isAcceptedFile f.mimeType f.name).map mkReadyItem)) := by
  constructor
  · intro ft n
    unfold isAcceptedFile isAcceptedAmended
    cases hc : ACCEPTED_TYPES.contains ft
    · simp only [Bool.false_eq_true, if_false, Bool.false_or]
      unfold fileExtension
      by_cases hl : (jsSplitDot (jsToLower n)).length ≤ 1
      · rw [if_pos hl, jsSplitDot_singleton (jsToLower n) hl]
      · rw [if_neg hl]
    · simp only [if_true, Bool.true_or]
  · intro incoming
    rfl

/-- C6: evaluation of the code on the leaking inputs.  For a successfully
converted SVG item, two object URLs are created (handles 0 and 1: one for
the raw file, one for the re-serialized SVG blob) but only the second is
revoked — handle 0 is never released.  For an item whose image load fails,
the created handle is never revoked at all, because `revoke` is still the
initial no-op when the failure is caught. -/
theorem convertAll_url_leak :
    (convertAll ConvMode.webp 1 256 [okSvgFile ("pic.svg")] false
      [mkReadyItem (okSvgFile ("pic.svg"))]).urlCreated = [0, 1] ∧
    (convertAll ConvMode.webp 1 256 [okSvgFile ("pic.svg")] false
      [mkReadyItem (okSvgFile ("pic.svg"))]).urlRevoked = [1] ∧
    (convertAll ConvMode.webp 1 256 [badPngFile ("x.png")] false
      [mkReadyItem (badPngFile ("x.png"))]).urlCreated = [0] ∧
    (convertAll ConvMode.webp 1 256 [badPngFile ("x.png")] false
      [mkReadyItem (badPngFile ("x.png"))]).urlRevoked = [] := by
  exact ⟨by decide, by decide, by decide, by decide⟩

lemma runConv_ico_quality (q1 q2 : ℚ) (iconSize : ℕ) (single : Bool) :
    ∀ (fs : List FileModel) (st : RunState),
      runConv ConvMode.ico q1 iconSize single fs st =
        runConv ConvMode.ico q2 iconSize single fs st := by
  intro fs
  induction fs with
  | nil => intro st; rfl
  | cons f fs ih =>
    intro st
    simp only [runConv]
    rw [show pipelineOut ConvMode.ico q1 iconSize f =
      pipelineOut ConvMode.ico q2 iconSize f from rfl]
    cases pipelineOut ConvMode.ico q2 iconSize f with
    | ok a => exact ih _
    | error msg => exact ih _

/-- C8: in icon mode the pipeline never consumes the quality scalar — the
intermediate PNG export takes no quality parameter — so the whole run
(items, outputs, archive entries, everything observable) is identical under
any two quality values; quality can only influence the WebP encode. -/
theorem convertAll_ico_quality_independent (q1 q2 : ℚ) (iconSize : ℕ)
    (files : List FileModel) (busy : Bool) (items0 : List ConversionItem) :
    convertAll ConvMode.ico q1 iconSize files busy items0 =
      convertAll ConvMode.ico q2 iconSize files busy items0 := by
  unfold convertAll
  simp only [runConv_ico_quality q1 q2 iconSize]

/-! ## Orchestrator bookkeeping lemmas -/

lemma applyPatch_name (p : ItemPatch) (it : ConversionItem) :
    (applyPatch p it).name = it.name := by
  cases p <;> rfl

lemma updateItem_untouched (n : String) (p : ItemPatch) :
    ∀ (l : List ConversionItem), (∀ it ∈ l, it.name ≠ n) → updateItem n p l = l := by
  intro l
  induction l with
  | nil => intro _; rfl
  | cons a l ih =>
    intro h
    show (if a.name = n then applyPatch p a else a) :: updateItem n p l = a :: l
    rw [if_neg (h a (List.mem_cons_self a l)),
      ih fun it hit => h it (List.mem_cons_of_mem a hit)]

lemma updateItem_append (n : String) (p : ItemPatch) (l1 l2 : List ConversionItem) :
    updateItem n p (l1 ++ l2) = updateItem n p l1 ++ updateItem n p l2 :=
  List.map_append _ l1 l2

lemma updateItem_mid (n : String) (p : ItemPatch) (pre : List ConversionItem)
    (mid : ConversionItem) (rest : List ConversionItem)
    (h1 : ∀ it ∈ pre, it.name ≠ n) (h2 : ∀ it ∈ rest, it.name ≠ n) (hm : mid.name = n) :
    updateItem n p (pre ++ mid :: rest) = pre ++ applyPatch p mid :: rest := by
  rw [updateItem_append, updateItem_untouched n p pre h1]
  congr 1
  show (if mid.name = n then applyPatch p mid else mid) :: updateItem n p rest = _
  rw [if_pos hm, updateItem_untouched n p rest h2]

lemma expectedItem_name (mode : ConvMode) (q : ℚ) (isz : ℕ) (f : FileModel) :
    (expectedItem mode q isz f).name = f.name := by
  unfold expectedItem
  cases pipelineOut mode q isz f <;> rfl

lemma runConv_items_formula (mode : ConvMode) (q : ℚ) (isz : ℕ) (single : Bool) :
    ∀ (fs : List FileModel) (st : RunState) (pre : List ConversionItem),
      st.items = pre ++ fs.map mkReadyItem →
      (∀ it ∈ pre, it.name ∉ fs.map FileModel.name) →
      (fs.map FileModel.name).Nodup →
      (runConv mode q isz single fs st).items = pre ++ fs.map (expectedItem mode q isz) := by
  intro fs
  induction fs with
  | nil =>
    intro st pre hst _ _
    simpa using hst
  | cons f fs ih =>
    intro st pre hst hpre hnd
    rw [List.map_cons, List.nodup_cons] at hnd
    have hnotin : f.name ∉ fs.map FileModel.name := hnd.1
    have hndt : (fs.map FileModel.name).Nodup := hnd.2
    have hpre' : ∀ it ∈ pre, it.name ≠ f.name := by
      intro it hit e
      exact hpre it hit (by rw [List.map_cons]; exact e ▸ List.mem_cons_self _ _)
    have hpret : ∀ it ∈ pre, it.name ∉ fs.map FileModel.name := by
      intro it hit e
      exact hpre it hit (by rw [List.map_cons]; exact List.mem_cons_of_mem _ e)
    have hrest : ∀ it ∈ fs.map mkReadyItem, it.name ≠ f.name := by
      intro it hit e
      obtain ⟨g, hg, rfl⟩ := List.mem_map.mp hit
      exact hnotin (e ▸ List.mem_map_of_mem FileModel.name hg)
    have hst' : st.items = pre ++ mkReadyItem f :: fs.map mkReadyItem := by
      rw [hst, List.map_cons]
    have hi1 : updateItem f.name ItemPatch.working st.items =
        pre ++ (⟨f.name, .working, none⟩ : ConversionItem) :: fs.map mkReadyItem := by
      rw [hst']
      exact updateItem_mid f.name ItemPatch.working pre (mkReadyItem f) _ hpre' hrest rfl
    have hmid : ∀ p2 : ItemPatch,
        updateItem f.name p2 (pre ++ (⟨f.name, .working, none⟩ : ConversionItem) ::
            fs.map mkReadyItem) =
          pre ++ applyPatch p2 ⟨f.name, .working, none⟩ :: fs.map mkReadyItem := fun p2 =>
      updateItem_mid f.name p2 pre ⟨f.name, .working, none⟩ _ hpre' hrest rfl
    have hpre2 : ∀ e : ConversionItem, e.name = f.name →
        ∀ it ∈ pre ++ [e], it.name ∉ fs.map FileModel.name := by
      intro e hename it hit
      rcases List.mem_append.mp hit with hp | hp
      · exact hpret it hp
      · rw [List.mem_singleton.mp hp, hename]
        exact hnotin
    cases hpo : pipelineOut mode q isz f with
    | ok a =>
      have hexp : expectedItem mode q isz f = ⟨f.name, .done, none⟩ := by
        simp [expectedItem, hpo]
      simp only [runConv, hpo]
      rw [List.map_cons, hexp]
      exact (ih _ (pre ++ [(⟨f.name, .done, none⟩ : ConversionItem)])
        (by
          show updateItem f.name ItemPatch.done (updateItem f.name ItemPatch.working st.items) =
            (pre ++ [(⟨f.name, .done, none⟩ : ConversionItem)]) ++ List.map mkReadyItem fs
          rw [hi1, hmid ItemPatch.done]
          exact List.append_cons pre _ _)
        (hpre2 ⟨f.name, .done, none⟩ rfl) hndt).trans (List.append_cons pre _ _).symm
    | error msg =>
      have hexp : expectedItem mode q isz f = ⟨f.name, .error, some msg⟩ := by
        simp [expectedItem, hpo]
      simp only [runConv, hpo]
      rw [List.map_cons, hexp]
      exact (ih _ (pre ++ [(⟨f.name, .error, some msg⟩ : ConversionItem)])
        (by
          show updateItem f.name (ItemPatch.error msg)
              (updateItem f.name ItemPatch.working st.items) =
            (pre ++ [(⟨f.name, .error, some msg⟩ : ConversionItem)]) ++ List.map mkReadyItem fs
          rw [hi1, hmid (ItemPatch.error msg)]
          exact List.append_cons pre _ _)
        (hpre2 ⟨f.name, .error, some msg⟩ rfl) hndt).trans (List.append_cons pre _ _).symm

lemma runConv_outputs_multi (mode : ConvMode) (q : ℚ) (isz : ℕ) :
    ∀ (fs : List FileModel) (st : RunState),
      (runConv mode q isz false fs st).zipEntries =
        st.zipEntries ++ fs.filterMap (fun f => okOf (pipelineOut mode q isz f)) ∧
      (runConv mode q isz false fs st).downloads = st.downloads := by
  intro fs
  induction fs with
  | nil =>
    intro st
    exact ⟨by simp [runConv], rfl⟩
  | cons f fs ih =>
    intro st
    cases hpo : pipelineOut mode q isz f with
    | ok a =>
      simp only [runConv, hpo, Bool.false_eq_true, if_false]
      obtain ⟨hz, hd⟩ := ih _
      rw [hz, hd]
      refine ⟨?_, rfl⟩
      have hfm : List.filterMap (fun g => okOf (pipelineOut mode q isz g)) (f :: fs) =
          a :: List.filterMap (fun g => okOf (pipelineOut mode q isz g)) fs := by
        rw [List.filterMap_cons]
        simp [hpo, okOf]
      rw [hfm]
      simp [List.append_assoc]
    | error msg =>
      simp only [runConv, hpo]
      obtain ⟨hz, hd⟩ := ih _
      rw [hz, hd]
      refine ⟨?_, rfl⟩
      have hfm : List.filterMap (fun g => okOf (pipelineOut mode q isz g)) (f :: fs) =
          List.filterMap (fun g => okOf (pipelineOut mode q isz g)) fs := by
        rw [List.filterMap_cons]
        simp [hpo, okOf]
      rw [hfm]

lemma runConv_outputs_single (mode : ConvMode) (q : ℚ) (isz : ℕ) :
    ∀ (fs : List FileModel) (st : RunState),
      (runConv mode q isz true fs st).downloads =
        st.downloads ++ fs.filterMap
          (fun f => (okOf (pipelineOut mode q isz f)).map fun a => Output.artifact a.1 a.2) ∧
      (runConv mode q isz true fs st).zipEntries = st.zipEntries := by
  intro fs
  induction fs with
  | nil =>
    intro st
    exact ⟨by simp [runConv], rfl⟩
  | cons f fs ih =>
    intro st
    cases hpo : pipelineOut mode q isz f with
    | ok a =>
      simp only [runConv, hpo, if_true]
      obtain ⟨hd, hz⟩ := ih _
      rw [hd, hz]
      refine ⟨?_, rfl⟩
      have hfm : List.filterMap
          (fun g => (okOf (pipelineOut mode q isz g)).map fun a => Output.artifact a.1 a.2)
          (f :: fs) =
          Output.artifact a.1 a.2 :: List.filterMap
            (fun g => (okOf (pipelineOut mode q isz g)).map fun a => Output.artifact a.1 a.2) fs := by
        rw [List.filterMap_cons]
        simp [hpo, okOf]
      rw [hfm]
      simp [List.append_assoc]
    | error msg =>
      simp only [runConv, hpo]
      obtain ⟨hd, hz⟩ := ih _
      rw [hd, hz]
      refine ⟨?_, rfl⟩
      have hfm : List.filterMap
          (fun g => (okOf (pipelineOut mode q isz g)).map fun a => Output.artifact a.1 a.2)
          (f :: fs) =
          List.filterMap
            (fun g => (okOf (pipelineOut mode q isz g)).map fun a => Output.artifact a.1 a.2) fs := by
        rw [List.filterMap_cons]
        simp [hpo, okOf]
      rw [hfm]

lemma stepOk_refl (s : ItemStatus) : stepOk s s = true := by
  cases s <;> rfl

lemma itemsStepOk_update (n : String) (p : ItemPatch) :
    ∀ (items : List ConversionItem),
      (∀ it ∈ items, it.name = n → stepOk it.status (applyPatch p it).status = true) →
      itemsStepOk items (updateItem n p items) = true := by
  intro items
  induction items with
  | nil => intro _; rfl
  | cons a l ih =>
    intro h
    show (stepOk a.status (if a.name = n then applyPatch p a else a).status &&
      itemsStepOk l (updateItem n p l)) = true
    rw [Bool.and_eq_true]
    refine ⟨?_, ih fun it hit => h it (List.mem_cons_of_mem a hit)⟩
    by_cases ha : a.name = n
    · rw [if_pos ha]
      exact h a (List.mem_cons_self a l) ha
    · rw [if_neg ha]
      exact stepOk_refl a.status

lemma runConv_trace (mode : ConvMode) (q : ℚ) (isz : ℕ) (single : Bool) :
    ∀ (fs : List FileModel) (st : RunState),
      (fs.map FileModel.name).Nodup →
      (∀ it ∈ st.items, it.name ∈ fs.map FileModel.name → it.status = ItemStatus.ready) →
      ∃ delta, (runConv mode q isz single fs st).history = st.history ++ delta ∧
        traceOk (st.items :: delta) = true := by
  intro fs
  induction fs with
  | nil =>
    intro st _ _
    exact ⟨[], by simp [runConv], rfl⟩
  | cons f fs ih =>
    intro st hnd hready
    rw [List.map_cons, List.nodup_cons] at hnd
    have hs1 : itemsStepOk st.items (updateItem f.name ItemPatch.working st.items) = true := by
      refine itemsStepOk_update f.name ItemPatch.working st.items ?_
      intro it hit he
      rw [hready it hit (by rw [List.map_cons]; exact he ▸ List.mem_cons_self _ _)]
      rfl
    have hs2 : ∀ p2 : ItemPatch,
        (∀ s : ConversionItem, stepOk ItemStatus.working (applyPatch p2 s).status = true) →
        itemsStepOk (updateItem f.name ItemPatch.working st.items)
          (updateItem f.name p2 (updateItem f.name ItemPatch.working st.items)) = true := by
      intro p2 hp2
      refine itemsStepOk_update f.name p2 _ ?_
      intro it hit he
      obtain ⟨it0, _, heq⟩ := List.mem_map.mp hit
      have hst : it.status = ItemStatus.working := by
        rw [← heq]
        by_cases h0 : it0.name = f.name
        · rw [if_pos h0]
          rfl
        · exfalso
          rw [← heq, if_neg h0] at he
          exact h0 he
      rw [hst]
      exact hp2 it
    have hready2 : ∀ p2 : ItemPatch,
        ∀ it ∈ updateItem f.name p2 (updateItem f.name ItemPatch.working st.items),
          it.name ∈ fs.map FileModel.name → it.status = ItemStatus.ready := by
      intro p2 it hit hmem
      obtain ⟨it1, hit1, heq1⟩ := List.mem_map.mp hit
      obtain ⟨it0, hit0, heq0⟩ := List.mem_map.mp hit1
      have h0 : ¬ it0.name = f.name := by
        intro e
        have hit1name : it1.name = f.name := by
          rw [← heq0, if_pos e, applyPatch_name]
          exact e
        have hitname : it.name = f.name := by
          rw [← heq1, if_pos hit1name, applyPatch_name]
          exact hit1name
        exact hnd.1 (hitname ▸ hmem)
      have h1 : ¬ it1.name = f.name := by
        rw [← heq0, if_neg h0]
        exact h0
      have hit0' : it = it0 := by
        rw [← heq1, if_neg h1, ← heq0, if_neg h0]
      rw [hit0'] at hmem ⊢
      exact hready it0 hit0 (by rw [List.map_cons]; exact List.mem_cons_of_mem _ hmem)
    cases hpo : pipelineOut mode q isz f with
    | ok a =>
      simp only [runConv, hpo]
      obtain ⟨d, hd, ht⟩ := ih
        ⟨updateItem f.name ItemPatch.done (updateItem f.name ItemPatch.working st.items),
          st.history ++ [updateItem f.name ItemPatch.working st.items,
            updateItem f.name ItemPatch.done (updateItem f.name ItemPatch.working st.items)],
          if single then st.zipEntries else st.zipEntries ++ [a],
          if single then st.downloads ++ [Output.artifact a.1 a.2] else st.downloads,
          st.urlCreated ++ (pipelineUrls f st.ctr).1,
          st.urlRevoked ++ (pipelineUrls f st.ctr).2.1,
          (pipelineUrls f st.ctr).2.2⟩
        hnd.2 (hready2 ItemPatch.done)
      refine ⟨updateItem f.name ItemPatch.working st.items ::
        updateItem f.name ItemPatch.done (updateItem f.name ItemPatch.working st.items) :: d,
        ?_, ?_⟩
      · rw [hd]
        simp
      · show (itemsStepOk st.items (updateItem f.name ItemPatch.working st.items) &&
          traceOk (updateItem f.name ItemPatch.working st.items ::
            updateItem f.name ItemPatch.done
              (updateItem f.name ItemPatch.working st.items) :: d)) = true
        rw [Bool.and_eq_true]
        refine ⟨hs1, ?_⟩
        show (itemsStepOk (updateItem f.name ItemPatch.working st.items)
            (updateItem f.name ItemPatch.done
              (updateItem f.name ItemPatch.working st.items)) &&
          traceOk (updateItem f.name ItemPatch.done
            (updateItem f.name ItemPatch.working st.items) :: d)) = true
        rw [Bool.and_eq_true]
        exact ⟨hs2 ItemPatch.done (fun s => rfl), ht⟩
    | error msg =>
      simp only [runConv, hpo]
      obtain ⟨d, hd, ht⟩ := ih
        ⟨updateItem f.name (ItemPatch.error msg) (updateItem f.name ItemPatch.working st.items),
          st.history ++ [updateItem f.name ItemPatch.working st.items,
            updateItem f.name (ItemPatch.error msg)
              (updateItem f.name ItemPatch.working st.items)],
          st.zipEntries, st.downloads,
          st.urlCreated ++ (pipelineUrls f st.ctr).1,
          st.urlRevoked ++ (pipelineUrls f st.ctr).2.1,
          (pipelineUrls f st.ctr).2.2⟩
        hnd.2 (hready2 (ItemPatch.error msg))
      refine ⟨updateItem f.name ItemPatch.working st.items ::
        updateItem f.name (ItemPatch.error msg)
          (updateItem f.name ItemPatch.working st.items) :: d,
        ?_, ?_⟩
      · rw [hd]
        simp
      · show (itemsStepOk st.items (updateItem f.name ItemPatch.working st.items) &&
          traceOk (updateItem f.name ItemPatch.working st.items ::
            updateItem f.name (ItemPatch.error msg)
              (updateItem f.name ItemPatch.working st.items) :: d)) = true
        rw [Bool.and_eq_true]
        refine ⟨hs1, ?_⟩
        show (itemsStepOk (updateItem f.name ItemPatch.working st.items)
            (updateItem f.name (ItemPatch.error msg)
              (updateItem f.name ItemPatch.working st.items)) &&
          traceOk (updateItem f.name (ItemPatch.error msg)
            (updateItem f.name ItemPatch.working st.items) :: d)) = true
        rw [Bool.and_eq_true]
        exact ⟨hs2 (ItemPatch.error msg) (fun s => rfl), ht⟩

lemma pipelineOut_name (mode : ConvMode) (q : ℚ) (isz : ℕ) (f : FileModel)
    (a : String × List ℕ) (h : pipelineOut mode q isz f = Except.ok a) :
    a.1 = getBaseName f.name ++ modeExt mode := by
  rcases hl : (loadImageFromFile f 0).result with msg | loaded <;>
    simp only [pipelineOut, hl] at h
  · exact absurd h (by simp)
  · by_cases hctx : f.ctxOk = true
    · rw [if_pos hctx] at h
      cases mode with
      | webp =>
        rcases he : f.webpEncode (loaded.width, loaded.height) q with _ | bytes <;>
          simp only [he] at h
        · exact absurd h (by simp)
        · rw [Except.ok.injEq] at h
          rw [← h]
          rfl
      | ico =>
        rcases he : f.pngEncode isz with _ | png <;> simp only [he] at h
        · exact absurd h (by simp)
        · rw [Except.ok.injEq] at h
          rw [← h]
          rfl
    · rw [if_neg hctx] at h
      simp at h

/-- C5 (amended): on a freshly accepted input set whose file names are
pairwise distinct, every snapshot-to-snapshot transition of every item
during a run is legal: an item either keeps its status or moves
Ready→Working, Working→Done, or Working→Error; starting from all-Ready this
also means no item reaches Done or Error without passing through Working.
(The distinct-names proviso is forced by `convertAll_monotonic_cex`:
`updateItem` patches by name, so duplicate names move items backwards.) -/
theorem convertAll_monotonic (mode : ConvMode) (q : ℚ) (isz : ℕ) (files : List FileModel)
    (h : (files.map FileModel.name).Nodup) :
    traceOk (files.map mkReadyItem ::
      (convertAll mode q isz files false (files.map mkReadyItem)).history) = true := by
  unfold convertAll
  rcases files with _ | ⟨f, fs⟩
  · rfl
  · rw [if_neg (by simp)]
    obtain ⟨d, hd, ht⟩ := runConv_trace mode q isz ((f :: fs).length == 1) (f :: fs)
      (initState ((f :: fs).map mkReadyItem)) h (by
        intro it hit _
        obtain ⟨g, _, rfl⟩ := List.mem_map.mp hit
        rfl)
    have hkey : traceOk ((f :: fs).map mkReadyItem ::
        (runConv mode q isz ((f :: fs).length == 1) (f :: fs)
          (initState ((f :: fs).map mkReadyItem))).history) = true := by
      rw [hd]
      exact ht
    split
    · exact hkey
    · exact hkey

theorem convertAll_monotonic_witness :
    traceOk (([okPngFile ("a.png"), badPngFile ("b.png")].map mkReadyItem) ::
      (convertAll ConvMode.webp 1 256 [okPngFile ("a.png"), badPngFile ("b.png")] false
        ([okPngFile ("a.png"), badPngFile ("b.png")].map mkReadyItem)).history) = true :=
  convertAll_monotonic ConvMode.webp 1 256 [okPngFile ("a.png"), badPngFile ("b.png")]
    (by decide)

/-- C5 (counterexample to the claim as stated): two accepted files sharing
the name `a.png` give an illegal transition — `updateItem` patches every
item with the matching name, so when the second file starts, the already
Done first item moves Done→Working, a reverse transition. -/
theorem convertAll_monotonic_cex :
    traceOk (([okPngFile ("a.png"), okPngFile ("a.png")].map mkReadyItem) ::
      (convertAll ConvMode.webp 1 256 [okPngFile ("a.png"), okPngFile ("a.png")] false
        ([okPngFile ("a.png"), okPngFile ("a.png")].map mkReadyItem)).history) = false := by
  decide

/-- C3 (amended): on a batch whose file names are pairwise distinct, every
item's final record is a function of its own file alone: Done with cleared
detail when its pipeline succeeds, Error with the thrown message as the
human-readable detail when any stage fails — so one item's failure neither
aborts the run nor affects any other item — and the archive receives
exactly the successful items' entries, in order.  (The distinct-names
proviso is forced by `convertAll_isolation_cex`.) -/
theorem convertAll_isolation (mode : ConvMode) (q : ℚ) (isz : ℕ) (files : List FileModel)
    (h : (files.map FileModel.name).Nodup) :
    (convertAll mode q isz files false (files.map mkReadyItem)).items =
      files.map (expectedItem mode q isz) ∧
    (convertAll mode q isz files false (files.map mkReadyItem)).zipEntries =
      (if files.length = 1 then []
        else files.filterMap fun f => okOf (pipelineOut mode q isz f)) := by
  unfold convertAll
  rcases files with _ | ⟨f, fs⟩
  · exact ⟨rfl, rfl⟩
  · rw [if_neg (by simp)]
    rcases fs with _ | ⟨g, gs⟩
    · constructor
      · exact runConv_items_formula mode q isz (([f].length == 1)) [f]
          (initState ([f].map mkReadyItem)) [] rfl (by simp) (by simp)
      · exact (runConv_outputs_single mode q isz [f] (initState ([f].map mkReadyItem))).2
    · have hlen : 1 < (f :: g :: gs).length := by
        simp only [List.length_cons]
        omega
      constructor
      · rw [if_pos hlen]
        exact runConv_items_formula mode q isz ((f :: g :: gs).length == 1) (f :: g :: gs)
          (initState ((f :: g :: gs).map mkReadyItem)) [] rfl (by simp) h
      · rw [if_pos hlen,
          if_neg (show ¬ (f :: g :: gs).length = 1 by simp only [List.length_cons]; omega)]
        exact (runConv_outputs_multi mode q isz (f :: g :: gs)
          (initState ((f :: g :: gs).map mkReadyItem))).1

theorem convertAll_isolation_witness :
    (convertAll ConvMode.ico 1 64
      [okPngFile ("one.png"), badPngFile ("two.png"), okPngFile ("three.png")] false
      ([okPngFile ("one.png"), badPngFile ("two.png"), okPngFile ("three.png")].map
        mkReadyItem)).items =
      [⟨("one.png"), .done, none⟩, ⟨("two.png"), .error, some ("Image load failed")⟩,
        ⟨("three.png"), .done, none⟩] ∧
    (convertAll ConvMode.ico 1 64
      [okPngFile ("one.png"), badPngFile ("two.png"), okPngFile ("three.png")] false
      ([okPngFile ("one.png"), badPngFile ("two.png"), okPngFile ("three.png")].map
        mkReadyItem)).zipEntries =
      [(("one.ico"), buildIcoBlob [9] 64), (("three.ico"), buildIcoBlob [9] 64)] := by
  have h := convertAll_isolation ConvMode.ico 1 64
    [okPngFile ("one.png"), badPngFile ("two.png"), okPngFile ("three.png")] (by decide)
  refine ⟨?_, ?_⟩
  · rw [h.1]
    decide
  · rw [h.2]
    decide

/-- C3 (counterexample to the claim as stated): two files both named
`b.png`, the first convertible and the second corrupt.  The first item's
own pipeline succeeds (second conjunct), yet its final status is Error —
the failing second file's `updateItem` patched every item with that name —
so a failing item does affect another item's outcome. -/
theorem convertAll_isolation_cex :
    (convertAll ConvMode.webp 1 256 [okPngFile ("b.png"), badPngFile ("b.png")] false
      ([okPngFile ("b.png"), badPngFile ("b.png")].map mkReadyItem)).items =
      [⟨("b.png"), .error, some ("Image load failed")⟩,
        ⟨("b.png"), .error, some ("Image load failed")⟩] ∧
    okOf (pipelineOut ConvMode.webp 1 256 (okPngFile ("b.png"))) = some (("b.webp"), [7]) := by
  exact ⟨by decide, by decide⟩

/-- C4: a single-item batch builds no archive — its downloads are exactly
the one artifact `<base>.webp`/`<base>.ico` when the item succeeds, and
nothing at all when it fails; a multi-item batch downloads exactly one
archive named `webp-conversions.zip`/`ico-icons.zip` per mode, whose
submitted entries are `<base>.<ext>` per successful item and nothing else. -/
theorem convertAll_output_shape (mode : ConvMode) (q : ℚ) (isz : ℕ) :
    (∀ f a, pipelineOut mode q isz f = Except.ok a →
      (convertAll mode q isz [f] false [mkReadyItem f]).downloads =
        [Output.artifact a.1 a.2] ∧
      a.1 = getBaseName f.name ++ modeExt mode) ∧
    (∀ f msg, pipelineOut mode q isz f = Except.error msg →
      (convertAll mode q isz [f] false [mkReadyItem f]).downloads = []) ∧
    (∀ files : List FileModel, 1 < files.length →
      (convertAll mode q isz files false (files.map mkReadyItem)).downloads =
        [Output.archive (zipName mode)
          (files.filterMap fun f => okOf (pipelineOut mode q isz f))] ∧
      ∀ f a, f ∈ files → pipelineOut mode q isz f = Except.ok a →
        a.1 = getBaseName f.name ++ modeExt mode) := by
  refine ⟨?_, ?_, ?_⟩
  · intro f a hpo
    refine ⟨?_, pipelineOut_name mode q isz f a hpo⟩
    unfold convertAll
    rw [if_neg (by simp)]
    have hd := (runConv_outputs_single mode q isz [f] (initState [mkReadyItem f])).1
    have hfm : List.filterMap
        (fun g => (okOf (pipelineOut mode q isz g)).map fun a => Output.artifact a.1 a.2)
        [f] = [Output.artifact a.1 a.2] := by
      rw [List.filterMap_cons]
      simp [hpo, okOf]
    exact hd.trans (by rw [hfm]; rfl)
  · intro f msg hpo
    unfold convertAll
    rw [if_neg (by simp)]
    have hd := (runConv_outputs_single mode q isz [f] (initState [mkReadyItem f])).1
    have hfm : List.filterMap
        (fun g => (okOf (pipelineOut mode q isz g)).map fun a => Output.artifact a.1 a.2)
        [f] = [] := by
      rw [List.filterMap_cons]
      simp [hpo, okOf]
    exact hd.trans (by rw [hfm]; rfl)
  · intro files hlen
    refine ⟨?_, fun f a _ hpo => pipelineOut_name mode q isz f a hpo⟩
    rcases files with _ | ⟨f, fs⟩
    · exact absurd hlen (by simp)
    rcases fs with _ | ⟨g, gs⟩
    · exact absurd hlen (by simp)
    simp only [convertAll]
    rw [if_neg (by simp), if_pos (by simp only [List.length_cons]; omega)]
    obtain ⟨hz, hd⟩ := runConv_outputs_multi mode q isz (f :: g :: gs)
      (initState ((f :: g :: gs).map mkReadyItem))
    show (runConv mode q isz ((f :: g :: gs).length == 1) (f :: g :: gs)
        (initState ((f :: g :: gs).map mkReadyItem))).downloads ++
      [Output.archive (zipName mode)
        (runConv mode q isz ((f :: g :: gs).length == 1) (f :: g :: gs)
          (initState ((f :: g :: gs).map mkReadyItem))).zipEntries] = _
    rw [show (runConv mode q isz ((f :: g :: gs).length == 1) (f :: g :: gs)
        (initState ((f :: g :: gs).map mkReadyItem))).downloads = [] from hd,
      show (runConv mode q isz ((f :: g :: gs).length == 1) (f :: g :: gs)
        (initState ((f :: g :: gs).map mkReadyItem))).zipEntries =
        (f :: g :: gs).filterMap (fun f => okOf (pipelineOut mode q isz f)) from hz]
    rfl

theorem convertAll_output_shape_witness :
    (convertAll ConvMode.webp 1 256 [okPngFile ("a.png")] false
      [mkReadyItem (okPngFile ("a.png"))]).downloads = [Output.artifact ("a.webp") [7]] ∧
    (convertAll ConvMode.ico 1 64 [okPngFile ("a.png"), badPngFile ("b.png")] false
      ([okPngFile ("a.png"), badPngFile ("b.png")].map mkReadyItem)).downloads =
      [Output.archive ("ico-icons.zip") [(("a.ico"), buildIcoBlob [9] 64)]] := by
  constructor
  · exact ((convertAll_output_shape ConvMode.webp 1 256).1 (okPngFile ("a.png"))
      (("a.webp"), [7]) (by decide)).1
  · have h := ((convertAll_output_shape ConvMode.ico 1 64).2.2
      [okPngFile ("a.png"), badPngFile ("b.png")] (by decide)).1
    rw [h]
    decide

/-- C10: a multi-item batch in which every item fails still finalizes and
downloads the archive — with zero entries; producing the archive depends
only on the item count, never on how many items succeeded. -/
theorem convertAll_allFail_archive (mode : ConvMode) (q : ℚ) (isz : ℕ)
    (files : List FileModel) (h1 : 1 < files.length)
    (h2 : ∀ f ∈ files, ∃ msg, pipelineOut mode q isz f = Except.error msg) :
    (convertAll mode q isz files false (files.map mkReadyItem)).downloads =
      [Output.archive (zipName mode) []] := by
  have hfm : files.filterMap (fun f => okOf (pipelineOut mode q isz f)) = [] := by
    rw [List.filterMap_eq_nil_iff]
    intro f hf
    obtain ⟨msg, hmsg⟩ := h2 f hf
    simp [hmsg, okOf]
  rcases files with _ | ⟨f, fs⟩
  · exact absurd h1 (by simp)
  rcases fs with _ | ⟨g, gs⟩
  · exact absurd h1 (by simp)
  simp only [convertAll]
  rw [if_neg (by simp), if_pos (by simp only [List.length_cons]; omega)]
  obtain ⟨hz, hd⟩ := runConv_outputs_multi mode q isz (f :: g :: gs)
    (initState ((f :: g :: gs).map mkReadyItem))
  show (runConv mode q isz ((f :: g :: gs).length == 1) (f :: g :: gs)
      (initState ((f :: g :: gs).map mkReadyItem))).downloads ++
    [Output.archive (zipName mode)
      (runConv mode q isz ((f :: g :: gs).length == 1) (f :: g :: gs)
        (initState ((f :: g :: gs).map mkReadyItem))).zipEntries] = _
  rw [show (runConv mode q isz ((f :: g :: gs).length == 1) (f :: g :: gs)
      (initState ((f :: g :: gs).map mkReadyItem))).downloads = [] from hd,
    show (runConv mode q isz ((f :: g :: gs).length == 1) (f :: g :: gs)
      (initState ((f :: g :: gs).map mkReadyItem))).zipEntries =
      (f :: g :: gs).filterMap (fun f => okOf (pipelineOut mode q isz f)) from hz,
    hfm]
  rfl

theorem convertAll_allFail_archive_witness :
    (convertAll ConvMode.webp 1 256 [badPngFile ("x.png"), badPngFile ("y.png")] false
      ([badPngFile ("x.png"), badPngFile ("y.png")].map mkReadyItem)).downloads =
      [Output.archive ("webp-conversions.zip") []] := by
  have h := convertAll_allFail_archive ConvMode.webp 1 256
    [badPngFile ("x.png"), badPngFile ("y.png")] (by decide) (by
      intro f hf
      simp only [List.mem_cons, List.not_mem_nil, or_false] at hf
      rcases hf with rfl | rfl
      · exact ⟨("Image load failed"), by decide⟩
      · exact ⟨("Image load failed"), by decide⟩)
  exact h

end FilesConv
